import Mathlib

/-!
Verification of the alpaca proxy's multi-method authentication subsystem.

The definitions below are a shallow embedding of:
- `multiauth.go` (`newMultiAuthenticator`, `multiAuthenticator.do`),
- the authentication-chain construction in `main.go`,
- the credential print mode (`-H`) in `main.go`,
- `kerberos_darwin.go` (`generateSPNEGOToken`, `negotiateAuthenticator.do`).

Side effects of the Go code (method invocations, response-body closes,
cache reads and writes, round trips) are made observable as an explicit
event trace produced alongside the result.
-/

/-- HTTP status 407, `http.StatusProxyAuthRequired` in Go. -/
def statusProxyAuthRequired : Nat := 407

/-- An authentication method in the configured chain. Methods are Go
interface values; we represent each by an identifier, and the dynamic
dispatch `method.do(req, rt)` by a behaviour function supplied to the
embedding (the round-tripper `rt` is threaded through unchanged by
`multiAuthenticator.do`, so it is absorbed into the behaviour). -/
abbrev Method := Nat

/-- An HTTP response as far as `multiAuthenticator.do` observes it:
its status code, plus an identifier for its body so body closes can be
tracked in the trace. -/
structure Response where
  statusCode : Nat
  bodyId : Nat
deriving DecidableEq, Repr

/-- Result of `method.do(req, rt)` in Go: either a response or an error
(`(*http.Response, error)` with exactly one side set on the paths the
multi-authenticator takes). -/
inductive AuthResult where
  | ok (resp : Response)
  | err (msg : String)
deriving DecidableEq, Repr

/-- The request as `multiAuthenticator.do` observes it: the hostname of
the proxy URL carried in the request context under `contextKeyProxy`,
when present. `some ""` models a proxy URL whose `Hostname()` is empty. -/
structure Req where
  proxyCtx : Option String
deriving DecidableEq, Repr

/-- The `proxyHost` local of `multiAuthenticator.do` (lines 341-344):
empty string when the context carries no proxy URL, otherwise the URL's
hostname. -/
def proxyHostOf (req : Req) : String :=
  match req.proxyCtx with
  | none => ""
  | some h => h

/-- Observable side effects of one `multiAuthenticator.do` call. -/
inductive Event where
  | invoke (m : Method)
  | closeBody (resp : Response)
  | drainBody (resp : Response)
  | cacheRead (host : String)
  | cacheWrite (host : String) (m : Method)
deriving DecidableEq, Repr

/-- The `cache map[string]proxyAuthenticator` field, as an association
list; the most recent binding for a key is the visible one. -/
abbrev Cache := List (String × Method)

/-- Go map read `cached, ok := m.cache[proxyHost]`. -/
def cacheLookup : Cache → String → Option Method
  | [], _ => none
  | (k, v) :: rest, h => if k = h then some v else cacheLookup rest h

/-- Go map write `m.cache[proxyHost] = method`. -/
def cacheInsert (c : Cache) (h : String) (m : Method) : Cache :=
  (h, m) :: c

/-- The `multiAuthenticator` struct: its method chain and its per-proxy
cache (the mutex only guards concurrent access and has no sequential
behaviour). -/
structure MultiAuth where
  methods : List Method
  cache : Cache
deriving DecidableEq, Repr

/-- Result of one `multiAuthenticator.do` call: the returned value, the
trace of observable effects, and the cache contents afterwards. -/
structure DoOutcome where
  result : AuthResult
  events : List Event
  cache : Cache
deriving DecidableEq, Repr

/-- The `for i, method := range m.methods` loop of `multiAuthenticator.do`
(lines 357-381): invoke each method in order; propagate an error at once;
on a non-407 response cache the method for the proxy host (when there is
one) and return the response; on a 407 close the body and continue unless
this is the last method, in which case the 407 is returned as-is. The
empty case is the `return nil, fmt.Errorf(...)` after the loop. -/
def tryMethods (beh : Method → Req → AuthResult) (req : Req) (ph : String)
    (cache : Cache) : List Method → DoOutcome
  | [] => ⟨.err "no authentication methods configured", [], cache⟩
  | m :: rest =>
    match beh m req with
    | .err e => ⟨.err e, [.invoke m], cache⟩
    | .ok resp =>
      if resp.statusCode ≠ statusProxyAuthRequired then
        if ph = "" then
          ⟨.ok resp, [.invoke m], cache⟩
        else
          ⟨.ok resp, [.invoke m, .cacheWrite ph m], cacheInsert cache ph m⟩
      else
        match rest with
        | [] => ⟨.ok resp, [.invoke m], cache⟩
        | _ :: _ =>
          let out := tryMethods beh req ph cache rest
          ⟨out.result, .invoke m :: .closeBody resp :: out.events, out.cache⟩

/-- `multiAuthenticator.do` (lines 340-382): compute `proxyHost` from the
request context; when it is non-empty, consult the cache and delegate to
a cached method if one exists, returning its result unchanged; otherwise
run the method chain. -/
def multiDo (beh : Method → Req → AuthResult) (ma : MultiAuth) (req : Req) :
    DoOutcome :=
  let ph := proxyHostOf req
  if ph = "" then
    tryMethods beh req ph ma.cache ma.methods
  else
    match cacheLookup ma.cache ph with
    | some cached => ⟨beh cached req, [.cacheRead ph, .invoke cached], ma.cache⟩
    | none =>
      let out := tryMethods beh req ph ma.cache ma.methods
      ⟨out.result, .cacheRead ph :: out.events, out.cache⟩

/-- A sequence of `multiAuthenticator.do` calls on the same authenticator,
each call seeing the cache left by the previous one (the process-lifetime
behaviour of the shared `cache` field). -/
def runSeq (beh : Method → Req → AuthResult) (ms : List Method) :
    Cache → List Req → List DoOutcome
  | _, [] => []
  | c, r :: rs =>
    let out := multiDo beh ⟨ms, c⟩ r
    out :: runSeq beh ms out.cache rs

/-- Methods invoked during a call, in order of invocation. -/
def invokedOf : List Event → List Method
  | [] => []
  | .invoke m :: rest => m :: invokedOf rest
  | _ :: rest => invokedOf rest

/-- Response bodies closed during a call, in order. -/
def closedOf : List Event → List Response
  | [] => []
  | .closeBody resp :: rest => resp :: closedOf rest
  | _ :: rest => closedOf rest

/-- Whether the trace contains any body-drain effect. -/
def hasDrain : List Event → Bool
  | [] => false
  | .drainBody _ :: _ => true
  | _ :: rest => hasDrain rest

/-- Whether the trace touches the cache at all (read or write). -/
def hasCacheEvent : List Event → Bool
  | [] => false
  | .cacheRead _ :: _ => true
  | .cacheWrite _ _ :: _ => true
  | _ :: rest => hasCacheEvent rest

/-- The nil-filtering loop at the start of `newMultiAuthenticator`
(lines 321-326). -/
def filterNonNil : List (Option Method) → List Method
  | [] => []
  | none :: rest => filterNonNil rest
  | some m :: rest => m :: filterNonNil rest

/-- The possible values `newMultiAuthenticator` returns: the nil
interface, a single method passed through unchanged, or a
`multiAuthenticator` value. -/
inductive BuiltAuthenticator where
  | noAuth
  | single (m : Method)
  | multi (ma : MultiAuth)
deriving DecidableEq, Repr

/-- `newMultiAuthenticator` (lines 320-338): drop nil methods, then
return nil for zero methods, the method itself for one, or a
`multiAuthenticator` over the filtered list with a fresh empty cache. -/
def newMultiAuthenticator (methods : List (Option Method)) : BuiltAuthenticator :=
  match filterNonNil methods with
  | [] => .noAuth
  | [m] => .single m
  | ms => .multi ⟨ms, []⟩

/-- Ranking of the authentication methods `main` may place in the chain,
in the design order Negotiate, Basic, NTLM. -/
inductive AuthMethodKind where
  | negotiate
  | basic
  | ntlm
deriving DecidableEq, Repr

/-- Position of a method kind in the design order. -/
def methodRank : AuthMethodKind → Nat
  | .negotiate => 0
  | .basic => 1
  | .ntlm => 2

/-- The chain construction in `main` (main.go lines 121-137):
`methods` starts empty; Negotiate is appended when the `-k` flag is set
and `newNegotiateAuthenticator` returned non-nil (`negotiateReady`),
then Basic when basic credentials were configured, then NTLM when NTLM
credentials were obtained. -/
def buildAuthMethods (negotiateReady basicConfigured ntlmConfigured : Bool) :
    List AuthMethodKind :=
  let methods : List AuthMethodKind := []
  let methods := if negotiateReady then methods ++ [.negotiate] else methods
  let methods := if basicConfigured then methods ++ [.basic] else methods
  let methods := if ntlmConfigured then methods ++ [.ntlm] else methods
  methods

/-- Go's `%q` on the authenticator's string form, modelled as plain
double-quoting (exact for credential strings without escapes). -/
def goQuote (s : String) : String := "\x22" ++ s ++ "\x22"

/-- The `-H` (print hashed credentials) branch of `main` (main.go lines
111-119): with no NTLM authenticator, print a help line and exit 1;
otherwise print the export lines with the credentials and exit 0.
The result is the exit code paired with the printed lines. -/
def printHashMode (a : Option String) : Nat × List String :=
  match a with
  | none =>
    (1, ["Please specify a domain (using -d) and username (using -u)"])
  | some creds =>
    (0, ["# Add this to your ~/.profile (or equivalent) and restart your shell",
         "NTLM_CREDENTIALS=" ++ goQuote creds ++ "; export NTLM_CREDENTIALS"])

/-- The alphabet of `base64.StdEncoding`. -/
def base64Alphabet : List Char :=
  "ABCDEFGHIJKLMNOPQRSTUVWXYZabcdefghijklmnopqrstuvwxyz0123456789+/".toList

/-- Character for a 6-bit group under the standard base64 alphabet. -/
def base64Char (n : Nat) : Char := base64Alphabet.getD n 'A'

/-- Standard base64 of a byte list, three bytes at a time with `=`
padding, as `base64.StdEncoding.EncodeToString` produces. -/
def base64EncodeList : List Nat → List Char
  | [] => []
  | [b1] =>
    [base64Char (b1 / 4), base64Char (b1 % 4 * 16), '=', '=']
  | [b1, b2] =>
    [base64Char (b1 / 4), base64Char (b1 % 4 * 16 + b2 / 16),
     base64Char (b2 % 16 * 4), '=']
  | b1 :: b2 :: b3 :: rest =>
    base64Char (b1 / 4) :: base64Char (b1 % 4 * 16 + b2 / 16) ::
      base64Char (b2 % 16 * 4 + b3 / 64) :: base64Char (b3 % 64) ::
      base64EncodeList rest

/-- `base64.StdEncoding.EncodeToString` over a token given as its bytes. -/
def base64Encode (bs : List Nat) : String := String.mk (base64EncodeList bs)

/-- `GSS_S_COMPLETE`, the GSS success major status. -/
def GSS_S_COMPLETE : Nat := 0

/-- `generateSPNEGOToken` (kerberos_darwin.go lines 173-195): build the
service principal `"HTTP@" + proxyHost`, call the C `generateToken`
wrapper on it (modelled by the oracle `cgen`, returning the GSS major
status and the token bytes), and fail unless the major status is
`GSS_S_COMPLETE` and the token is non-empty. -/
def generateSPNEGOToken (cgen : String → Nat × List Nat) (proxyHost : String) :
    Except String (List Nat) :=
  let spn := "HTTP@" ++ proxyHost
  let res := cgen spn
  if res.1 ≠ GSS_S_COMPLETE then
    .error "gss_init_sec_context failed"
  else if res.2.length = 0 then
    .error "gss_init_sec_context returned empty token"
  else
    .ok res.2

/-- A request as the Negotiate authenticator observes it: the proxy URL
hostname from the context, and the header map. -/
structure NegReq where
  proxyCtx : Option String
  headers : List (String × String)
deriving DecidableEq, Repr

/-- Go's `req.Header.Set(key, value)`: replace any existing values for
the key with the single new value. -/
def headerSet (hs : List (String × String)) (k v : String) :
    List (String × String) :=
  (k, v) :: hs.filter (fun p => p.1 ≠ k)

/-- Read a header value (first binding wins, matching `headerSet`). -/
def headerGet : List (String × String) → String → Option String
  | [], _ => none
  | (k, v) :: rest, key => if k = key then some v else headerGet rest key

/-- Result of one `negotiateAuthenticator.do` call: the returned value,
the requests actually handed to `rt.RoundTrip`, and the service
principals passed to token generation. -/
structure NegOutcome where
  result : AuthResult
  sentRequests : List NegReq
  spnsUsed : List String
deriving DecidableEq, Repr

/-- `negotiateAuthenticator.do` (kerberos_darwin.go lines 200-219): read
the proxy hostname from the context and fail if it is empty; generate a
SPNEGO token for it (propagating failure); set `Proxy-Authorization` to
`"Negotiate " + base64(token)` and perform exactly one round trip. -/
def negotiateDo (cgen : String → Nat × List Nat) (rt : NegReq → AuthResult)
    (req : NegReq) : NegOutcome :=
  let proxyHost :=
    match req.proxyCtx with
    | none => ""
    | some h => h
  if proxyHost = "" then
    ⟨.err "cannot determine proxy host for Negotiate auth", [], []⟩
  else
    match generateSPNEGOToken cgen proxyHost with
    | .error e => ⟨.err e, [], ["HTTP@" ++ proxyHost]⟩
    | .ok token =>
      let req' : NegReq :=
        ⟨req.proxyCtx,
         headerSet req.headers "Proxy-Authorization"
           ("Negotiate " ++ base64Encode token)⟩
      ⟨rt req', [req'], ["HTTP@" ++ proxyHost]⟩

/-- Concrete behaviour for witnesses: every method returns a 407 whose
body id is the method's identifier. -/
def behAll407 : Method → Req → AuthResult := fun m _ => .ok ⟨407, m⟩

/-- Concrete behaviour for witnesses: method 0 returns a 407, every other
method returns a 200. -/
def behSecond200 : Method → Req → AuthResult :=
  fun m _ => if m = 0 then .ok ⟨407, 0⟩ else .ok ⟨200, m⟩

/-- Default request used with `List.getD` in sequence statements. -/
def reqDefault : Req := ⟨none⟩

/-- Default outcome used with `List.getD` in sequence statements. -/
def outcomeDefault : DoOutcome := ⟨.err "", [], []⟩

example : multiDo behAll407 ⟨[0, 1], []⟩ ⟨some "p"⟩ =
    ⟨.ok ⟨407, 1⟩,
     [.cacheRead "p", .invoke 0, .closeBody ⟨407, 0⟩, .invoke 1], []⟩ := by
  decide

example : multiDo behSecond200 ⟨[0, 1], []⟩ ⟨some "p"⟩ =
    ⟨.ok ⟨200, 1⟩,
     [.cacheRead "p", .invoke 0, .closeBody ⟨407, 0⟩, .invoke 1,
      .cacheWrite "p" 1], [("p", 1)]⟩ := by
  decide

example : multiDo behAll407 ⟨[0, 1], [("p", 1)]⟩ ⟨some "p"⟩ =
    ⟨.ok ⟨407, 1⟩, [.cacheRead "p", .invoke 1], [("p", 1)]⟩ := by
  decide

example : base64Encode [1, 2, 3] = "AQID" := by decide

example : base64Encode [77] = "TQ==" := by decide

example :
    negotiateDo (fun _ => (0, [1, 2, 3])) (fun _ => .ok ⟨200, 9⟩)
      ⟨some "proxy.example", []⟩ =
    ⟨.ok ⟨200, 9⟩,
     [⟨some "proxy.example", [("Proxy-Authorization", "Negotiate AQID")]⟩],
     ["HTTP@proxy.example"]⟩ := by
  decide

/-- The chain loop with an empty proxy host never touches the cache. -/
theorem tryMethods_cache_of_empty_host (beh : Method → Req → AuthResult)
    (req : Req) (c : Cache) (ms : List Method) :
    (tryMethods beh req "" c ms).cache = c := by
  induction ms with
  | nil => rfl
  | cons m rest ih =>
    unfold tryMethods
    cases beh m req with
    | err e => rfl
    | ok resp =>
      cases rest with
      | nil =>
        by_cases hs : resp.statusCode = statusProxyAuthRequired <;> simp [hs]
      | cons m' rest' =>
        by_cases hs : resp.statusCode = statusProxyAuthRequired <;> simp [hs]
        exact ih

/-- Unfolding lemma: a method whose invocation errors stops the chain. -/
theorem tryMethods_cons_err {beh : Method → Req → AuthResult} {req : Req}
    {ph : String} {c : Cache} {m : Method} {rest : List Method} {e : String}
    (hbeh : beh m req = .err e) :
    tryMethods beh req ph c (m :: rest) = ⟨.err e, [.invoke m], c⟩ := by
  unfold tryMethods
  rw [hbeh]

/-- Unfolding lemma: a non-407 response stops the chain and is cached
exactly when the proxy host is non-empty. -/
theorem tryMethods_cons_non407 {beh : Method → Req → AuthResult} {req : Req}
    {ph : String} {c : Cache} {m : Method} {rest : List Method}
    {resp : Response} (hbeh : beh m req = .ok resp)
    (hs : resp.statusCode ≠ statusProxyAuthRequired) :
    tryMethods beh req ph c (m :: rest) =
      if ph = "" then ⟨.ok resp, [.invoke m], c⟩
      else ⟨.ok resp, [.invoke m, .cacheWrite ph m], cacheInsert c ph m⟩ := by
  unfold tryMethods
  rw [hbeh]
  simp [hs]

/-- Unfolding lemma: a 407 from the last method is returned as-is. -/
theorem tryMethods_last407 {beh : Method → Req → AuthResult} {req : Req}
    {ph : String} {c : Cache} {m : Method} {resp : Response}
    (hbeh : beh m req = .ok resp)
    (hs : resp.statusCode = statusProxyAuthRequired) :
    tryMethods beh req ph c [m] = ⟨.ok resp, [.invoke m], c⟩ := by
  unfold tryMethods
  rw [hbeh]
  simp [hs]

/-- Unfolding lemma: a 407 from a non-last method closes its body and
continues with the remaining methods. -/
theorem tryMethods_cons_407 {beh : Method → Req → AuthResult} {req : Req}
    {ph : String} {c : Cache} {m : Method} {resp : Response}
    (hbeh : beh m req = .ok resp)
    (hs : resp.statusCode = statusProxyAuthRequired)
    (m' : Method) (rest' : List Method) :
    tryMethods beh req ph c (m :: m' :: rest') =
      ⟨(tryMethods beh req ph c (m' :: rest')).result,
       .invoke m :: .closeBody resp ::
         (tryMethods beh req ph c (m' :: rest')).events,
       (tryMethods beh req ph c (m' :: rest')).cache⟩ := by
  conv_lhs => unfold tryMethods
  rw [hbeh]
  simp [hs]

/-- Variant of `tryMethods_cons_407` for any non-empty tail. -/
theorem tryMethods_cons_407' {beh : Method → Req → AuthResult} {req : Req}
    {ph : String} {c : Cache} {m : Method} {resp : Response}
    {rest : List Method} (hbeh : beh m req = .ok resp)
    (hs : resp.statusCode = statusProxyAuthRequired) (hrest : rest ≠ []) :
    tryMethods beh req ph c (m :: rest) =
      ⟨(tryMethods beh req ph c rest).result,
       .invoke m :: .closeBody resp :: (tryMethods beh req ph c rest).events,
       (tryMethods beh req ph c rest).cache⟩ := by
  cases rest with
  | nil => exact absurd rfl hrest
  | cons y ys => exact tryMethods_cons_407 hbeh hs y ys

/-- Reduction of `invokedOf` over each event shape. -/
theorem invokedOf_invoke (m : Method) (evs : List Event) :
    invokedOf (.invoke m :: evs) = m :: invokedOf evs := rfl

theorem invokedOf_closeBody (resp : Response) (evs : List Event) :
    invokedOf (.closeBody resp :: evs) = invokedOf evs := rfl

theorem invokedOf_cacheRead (h : String) (evs : List Event) :
    invokedOf (.cacheRead h :: evs) = invokedOf evs := rfl

theorem invokedOf_cacheWrite (h : String) (m : Method) (evs : List Event) :
    invokedOf (.cacheWrite h m :: evs) = invokedOf evs := rfl

/-- Reduction of `closedOf` over each event shape. -/
theorem closedOf_invoke (m : Method) (evs : List Event) :
    closedOf (.invoke m :: evs) = closedOf evs := rfl

theorem closedOf_closeBody (resp : Response) (evs : List Event) :
    closedOf (.closeBody resp :: evs) = resp :: closedOf evs := rfl

theorem closedOf_cacheRead (h : String) (evs : List Event) :
    closedOf (.cacheRead h :: evs) = closedOf evs := rfl

theorem closedOf_cacheWrite (h : String) (m : Method) (evs : List Event) :
    closedOf (.cacheWrite h m :: evs) = closedOf evs := rfl

/-- Reduction of `hasDrain` over the event shapes arising in traces. -/
theorem hasDrain_nil : hasDrain [] = false := rfl

theorem hasDrain_invoke (m : Method) (evs : List Event) :
    hasDrain (.invoke m :: evs) = hasDrain evs := rfl

theorem hasDrain_closeBody (resp : Response) (evs : List Event) :
    hasDrain (.closeBody resp :: evs) = hasDrain evs := rfl

theorem hasDrain_cacheRead (h : String) (evs : List Event) :
    hasDrain (.cacheRead h :: evs) = hasDrain evs := rfl

theorem hasDrain_cacheWrite (h : String) (m : Method) (evs : List Event) :
    hasDrain (.cacheWrite h m :: evs) = hasDrain evs := rfl

/-- Reduction of `hasCacheEvent` over cache-free event shapes. -/
theorem hasCacheEvent_nil : hasCacheEvent [] = false := rfl

theorem hasCacheEvent_invoke (m : Method) (evs : List Event) :
    hasCacheEvent (.invoke m :: evs) = hasCacheEvent evs := rfl

theorem hasCacheEvent_closeBody (resp : Response) (evs : List Event) :
    hasCacheEvent (.closeBody resp :: evs) = hasCacheEvent evs := rfl

/-- Membership in `closedOf` is exactly presence of a close event. -/
theorem mem_closedOf (resp : Response) (evs : List Event) :
    resp ∈ closedOf evs ↔ Event.closeBody resp ∈ evs := by
  induction evs with
  | nil => simp [closedOf]
  | cons e rest ih =>
    cases e with
    | invoke m => simp [closedOf_invoke, ih]
    | closeBody r => simp [closedOf_closeBody, List.mem_cons, ih]
    | drainBody r => simp [closedOf, ih]
    | cacheRead h => simp [closedOf_cacheRead, ih]
    | cacheWrite h m => simp [closedOf_cacheWrite, ih]

/-- The chain loop either leaves the cache unchanged or adds a single
binding for the proxy host. -/
theorem tryMethods_cache_spec (beh : Method → Req → AuthResult) (req : Req)
    (ph : String) (c : Cache) (ms : List Method) :
    (tryMethods beh req ph c ms).cache = c ∨
      ∃ m, (tryMethods beh req ph c ms).cache = cacheInsert c ph m := by
  induction ms with
  | nil => exact Or.inl rfl
  | cons m rest ih =>
    unfold tryMethods
    cases beh m req with
    | err e => exact Or.inl rfl
    | ok resp =>
      by_cases hs : resp.statusCode = statusProxyAuthRequired
      · cases rest with
        | nil => simp [hs]
        | cons m' rest' =>
          simp only [hs]
          simpa using ih
      · by_cases hp : ph = ""
        · simp [hs, hp]
        · refine Or.inr ⟨m, ?_⟩
          simp [hs, hp]

/-- Reading an association list just after an insert. -/
theorem cacheLookup_insert (c : Cache) (ph h : String) (m : Method) :
    cacheLookup (cacheInsert c ph m) h =
      if ph = h then some m else cacheLookup c h := rfl

/-- One `multiAuthenticator.do` call never drops or overwrites an
existing cache binding. -/
theorem multiDo_cacheLookup_mono (beh : Method → Req → AuthResult)
    (ma : MultiAuth) (req : Req) (h : String) (v : Method)
    (hv : cacheLookup ma.cache h = some v) :
    cacheLookup (multiDo beh ma req).cache h = some v := by
  unfold multiDo
  by_cases hp : proxyHostOf req = ""
  · simpa [hp, tryMethods_cache_of_empty_host] using hv
  · cases hc : cacheLookup ma.cache (proxyHostOf req) with
    | some cached => simpa [hp, hc] using hv
    | none =>
      have hne : proxyHostOf req ≠ h := fun he => by
        rw [he, hv] at hc; exact Option.noConfusion hc
      rcases tryMethods_cache_spec beh req (proxyHostOf req) ma.cache
          ma.methods with hcc | ⟨m, hcc⟩
      · simpa [hp, hc, hcc] using hv
      · simpa [hp, hc, hcc, cacheLookup_insert, hne] using hv

/-- Full trace of the chain loop when every method answers 407: every
method is invoked once in order, the bodies of all but the last response
are closed, the last 407 is returned and the cache is untouched. -/
theorem tryMethods_all407 (beh : Method → Req → AuthResult) (req : Req)
    (ph : String) (c : Cache) (init : List Method) (lastM : Method)
    (r : Method → Response)
    (hr : ∀ m ∈ init ++ [lastM],
        beh m req = .ok (r m) ∧ (r m).statusCode = statusProxyAuthRequired) :
    tryMethods beh req ph c (init ++ [lastM]) =
      ⟨.ok (r lastM),
       init.flatMap (fun x => [.invoke x, .closeBody (r x)]) ++
         [.invoke lastM], c⟩ := by
  induction init with
  | nil =>
    have h1 := hr lastM (by simp)
    rw [List.nil_append, tryMethods_last407 h1.1 h1.2]
    simp
  | cons x init' ih =>
    have h1 := hr x (by simp)
    rw [List.cons_append, tryMethods_cons_407' h1.1 h1.2 (by simp)]
    rw [ih (fun y hy => hr y (List.mem_cons_of_mem x hy))]
    simp

/-- Full trace of the chain loop when every method before position `m`
answers 407 and `m` answers non-407: iteration stops at `m`, later
methods are untouched, and `m` is cached for a non-empty proxy host. -/
theorem tryMethods_first_non407 (beh : Method → Req → AuthResult) (req : Req)
    (ph : String) (c : Cache) (pre : List Method) (m : Method)
    (post : List Method) (r : Method → Response) (resp : Response)
    (hpre : ∀ x ∈ pre,
        beh x req = .ok (r x) ∧ (r x).statusCode = statusProxyAuthRequired)
    (hm : beh m req = .ok resp)
    (hs : resp.statusCode ≠ statusProxyAuthRequired) :
    tryMethods beh req ph c (pre ++ m :: post) =
      ⟨.ok resp,
       pre.flatMap (fun x => [.invoke x, .closeBody (r x)]) ++
         (if ph = "" then [.invoke m] else [.invoke m, .cacheWrite ph m]),
       if ph = "" then c else cacheInsert c ph m⟩ := by
  induction pre with
  | nil =>
    rw [List.nil_append, tryMethods_cons_non407 hm hs]
    by_cases hp : ph = "" <;> simp [hp]
  | cons x pre' ih =>
    have h1 := hpre x (by simp)
    rw [List.cons_append, tryMethods_cons_407' h1.1 h1.2 (by simp)]
    rw [ih (fun y hy => hpre y (List.mem_cons_of_mem x hy))]
    simp

/-- Every run of the chain loop on a non-empty list starts by invoking
the first method. -/
theorem tryMethods_events_cons (beh : Method → Req → AuthResult) (req : Req)
    (ph : String) (c : Cache) (m : Method) (rest : List Method) :
    ∃ tl, (tryMethods beh req ph c (m :: rest)).events = .invoke m :: tl := by
  cases hbeh : beh m req with
  | err e => exact ⟨[], by rw [tryMethods_cons_err hbeh]⟩
  | ok resp =>
    by_cases hs : resp.statusCode = statusProxyAuthRequired
    · cases rest with
      | nil => exact ⟨[], by rw [tryMethods_last407 hbeh hs]⟩
      | cons y ys =>
        exact ⟨_, by rw [tryMethods_cons_407 hbeh hs]⟩
    · by_cases hp : ph = ""
      · exact ⟨[], by rw [tryMethods_cons_non407 hbeh hs]; simp [hp]⟩
      · exact ⟨[.cacheWrite ph m],
          by rw [tryMethods_cons_non407 hbeh hs]; simp [hp]⟩

/-- The methods invoked by the chain loop are an initial segment of the
configured chain, in configured order, and at least one method is
invoked when the chain is non-empty. -/
theorem tryMethods_invoked_take (beh : Method → Req → AuthResult) (req : Req)
    (ph : String) (c : Cache) (ms : List Method) :
    ∃ k, invokedOf (tryMethods beh req ph c ms).events = ms.take k ∧
      (ms = [] ∨ 0 < k) := by
  induction ms with
  | nil => exact ⟨0, rfl, Or.inl rfl⟩
  | cons m rest ih =>
    cases hbeh : beh m req with
    | err e =>
      refine ⟨1, ?_, Or.inr Nat.one_pos⟩
      rw [tryMethods_cons_err hbeh]
      simp [invokedOf]
    | ok resp =>
      by_cases hs : resp.statusCode = statusProxyAuthRequired
      · cases rest with
        | nil =>
          refine ⟨1, ?_, Or.inr Nat.one_pos⟩
          rw [tryMethods_last407 hbeh hs]
          simp [invokedOf]
        | cons y ys =>
          obtain ⟨k, hk, _⟩ := ih
          refine ⟨k + 1, ?_, Or.inr (Nat.succ_pos k)⟩
          rw [tryMethods_cons_407 hbeh hs]
          simp only [invokedOf_invoke, invokedOf_closeBody, hk,
            List.take_succ_cons]
      · refine ⟨1, ?_, Or.inr Nat.one_pos⟩
        rw [tryMethods_cons_non407 hbeh hs]
        by_cases hp : ph = "" <;> simp [hp, invokedOf]

/-- The chain loop never drains a body. -/
theorem tryMethods_hasDrain (beh : Method → Req → AuthResult) (req : Req)
    (ph : String) (c : Cache) (ms : List Method) :
    hasDrain (tryMethods beh req ph c ms).events = false := by
  induction ms with
  | nil => rfl
  | cons m rest ih =>
    cases hbeh : beh m req with
    | err e => rw [tryMethods_cons_err hbeh]; rfl
    | ok resp =>
      by_cases hs : resp.statusCode = statusProxyAuthRequired
      · cases rest with
        | nil => rw [tryMethods_last407 hbeh hs]; rfl
        | cons y ys =>
          rw [tryMethods_cons_407 hbeh hs]
          simpa [hasDrain_invoke, hasDrain_closeBody] using ih
      · rw [tryMethods_cons_non407 hbeh hs]
        by_cases hp : ph = "" <;> simp [hp, hasDrain]

/-- With an empty proxy host the chain loop emits no cache events. -/
theorem tryMethods_hasCacheEvent_empty_host (beh : Method → Req → AuthResult)
    (req : Req) (c : Cache) (ms : List Method) :
    hasCacheEvent (tryMethods beh req "" c ms).events = false := by
  induction ms with
  | nil => rfl
  | cons m rest ih =>
    cases hbeh : beh m req with
    | err e => rw [tryMethods_cons_err hbeh]; rfl
    | ok resp =>
      by_cases hs : resp.statusCode = statusProxyAuthRequired
      · cases rest with
        | nil => rw [tryMethods_last407 hbeh hs]; rfl
        | cons y ys =>
          rw [tryMethods_cons_407 hbeh hs]
          simpa [hasCacheEvent_invoke, hasCacheEvent_closeBody] using ih
      · rw [tryMethods_cons_non407 hbeh hs]
        simp [hasCacheEvent]

/-- With no proxy host in the context, `multiAuthenticator.do` is the
bare chain loop. -/
theorem multiDo_empty_host {beh : Method → Req → AuthResult} {ma : MultiAuth}
    {req : Req} (hp : proxyHostOf req = "") :
    multiDo beh ma req = tryMethods beh req "" ma.cache ma.methods := by
  unfold multiDo
  simp [hp]

/-- With a proxy host that misses the cache, `multiAuthenticator.do` is
the chain loop preceded by the cache read. -/
theorem multiDo_cache_miss {beh : Method → Req → AuthResult} {ma : MultiAuth}
    {req : Req} (hp : proxyHostOf req ≠ "")
    (hc : cacheLookup ma.cache (proxyHostOf req) = none) :
    multiDo beh ma req =
      ⟨(tryMethods beh req (proxyHostOf req) ma.cache ma.methods).result,
       .cacheRead (proxyHostOf req) ::
         (tryMethods beh req (proxyHostOf req) ma.cache ma.methods).events,
       (tryMethods beh req (proxyHostOf req) ma.cache ma.methods).cache⟩ := by
  unfold multiDo
  simp [hp, hc]

/-- A cache hit delegates to the cached method, returns its result
unchanged, and leaves the cache untouched. -/
theorem multiDo_cache_hit (beh : Method → Req → AuthResult) (ma : MultiAuth)
    (req : Req) (h : String) (m : Method) (hph : proxyHostOf req = h)
    (hne : h ≠ "") (hc : cacheLookup ma.cache h = some m) :
    multiDo beh ma req = ⟨beh m req, [.cacheRead h, .invoke m], ma.cache⟩ := by
  unfold multiDo
  rw [hph]
  simp [hne, hc]

/-- `invokedOf` distributes over trace concatenation. -/
theorem invokedOf_append (evs1 evs2 : List Event) :
    invokedOf (evs1 ++ evs2) = invokedOf evs1 ++ invokedOf evs2 := by
  induction evs1 with
  | nil => rfl
  | cons e rest ih =>
    cases e <;> simp [invokedOf, ih]

/-- `closedOf` distributes over trace concatenation. -/
theorem closedOf_append (evs1 evs2 : List Event) :
    closedOf (evs1 ++ evs2) = closedOf evs1 ++ closedOf evs2 := by
  induction evs1 with
  | nil => rfl
  | cons e rest ih =>
    cases e <;> simp [closedOf, ih]

/-- Invocations in an invoke/close pair trace. -/
theorem invokedOf_flatMap_pairs (r : Method → Response) (init : List Method) :
    invokedOf (init.flatMap (fun x => [.invoke x, .closeBody (r x)])) = init := by
  induction init with
  | nil => rfl
  | cons x init' ih =>
    simp [List.flatMap_cons, invokedOf_invoke, invokedOf_closeBody, ih,
      invokedOf_append]

/-- Closed bodies in an invoke/close pair trace. -/
theorem closedOf_flatMap_pairs (r : Method → Response) (init : List Method) :
    closedOf (init.flatMap (fun x => [.invoke x, .closeBody (r x)]))
      = init.map r := by
  induction init with
  | nil => rfl
  | cons x init' ih =>
    simp [List.flatMap_cons, closedOf_invoke, closedOf_closeBody, ih,
      closedOf_append]

/-- The chain loop on a run of 407-answering methods followed by anything
non-empty: the 407 methods are invoked and their bodies closed in order,
then the loop continues on the remainder. -/
theorem tryMethods_all407_front (beh : Method → Req → AuthResult) (req : Req)
    (ph : String) (c : Cache) (pre ms' : List Method) (r : Method → Response)
    (hms' : ms' ≠ [])
    (hpre : ∀ x ∈ pre,
        beh x req = .ok (r x) ∧ (r x).statusCode = statusProxyAuthRequired) :
    tryMethods beh req ph c (pre ++ ms') =
      ⟨(tryMethods beh req ph c ms').result,
       pre.flatMap (fun x => [.invoke x, .closeBody (r x)]) ++
         (tryMethods beh req ph c ms').events,
       (tryMethods beh req ph c ms').cache⟩ := by
  induction pre with
  | nil => rfl
  | cons x pre' ih =>
    have h1 := hpre x (by simp)
    rw [List.cons_append,
      tryMethods_cons_407' h1.1 h1.2
        (fun hEq => hms' (List.append_eq_nil.mp hEq).2)]
    rw [ih (fun y hy => hpre y (List.mem_cons_of_mem x hy))]
    simp

/-- `multiAuthenticator.do` never drains a body. -/
theorem multiDo_hasDrain (beh : Method → Req → AuthResult) (ma : MultiAuth)
    (req : Req) : hasDrain (multiDo beh ma req).events = false := by
  by_cases hp : proxyHostOf req = ""
  · rw [multiDo_empty_host hp]
    exact tryMethods_hasDrain beh req "" ma.cache ma.methods
  · cases hc : cacheLookup ma.cache (proxyHostOf req) with
    | some cached =>
      rw [multiDo_cache_hit beh ma req (proxyHostOf req) cached rfl hp hc]
      rfl
    | none =>
      rw [multiDo_cache_miss hp hc]
      simpa [hasDrain_cacheRead] using
        tryMethods_hasDrain beh req (proxyHostOf req) ma.cache ma.methods

/-- C1: once `multiAuthenticator.do` has stored a method `m` for proxy
host `h` in its cache, every subsequent call in the sequence whose
request context carries proxy host `h` delegates to exactly that cached
method and returns its result unchanged — no other method in the chain
is invoked — for the remainder of the call sequence (process end). -/
theorem multiAuth_cached_method_sticky (beh : Method → Req → AuthResult)
    (ms : List Method) (rs : List Req) (h : String) (m : Method)
    (hne : h ≠ "") :
    ∀ cache : Cache, cacheLookup cache h = some m →
      ∀ i, i < rs.length → proxyHostOf (rs.getD i reqDefault) = h →
        ((runSeq beh ms cache rs).getD i outcomeDefault).result
            = beh m (rs.getD i reqDefault) ∧
        invokedOf ((runSeq beh ms cache rs).getD i outcomeDefault).events
            = [m] := by
  induction rs with
  | nil =>
    intro cache _ i hi
    exact absurd hi (Nat.not_lt_zero i)
  | cons r rs' ih =>
    intro cache hc i hi hph
    cases i with
    | zero =>
      simp only [List.getD_cons_zero] at hph ⊢
      have hdo := multiDo_cache_hit beh ⟨ms, cache⟩ r h m hph hne hc
      simp [runSeq, List.getD_cons_zero, hdo, invokedOf]
    | succ j =>
      have hmono := multiDo_cacheLookup_mono beh ⟨ms, cache⟩ r h m hc
      simp only [List.getD_cons_succ] at hph ⊢
      simp only [runSeq, List.getD_cons_succ]
      exact ih (multiDo beh ⟨ms, cache⟩ r).cache hmono j
        (Nat.lt_of_succ_lt_succ hi) hph

/-- Witness for C1 at a concrete chain, cache and request sequence. -/
theorem multiAuth_cached_method_sticky_witness :
    ((runSeq behAll407 [0, 1] [("p", 1)] [⟨some "p"⟩]).getD 0
        outcomeDefault).result = behAll407 1 ⟨some "p"⟩ ∧
    invokedOf ((runSeq behAll407 [0, 1] [("p", 1)] [⟨some "p"⟩]).getD 0
        outcomeDefault).events = [1] :=
  multiAuth_cached_method_sticky behAll407 [0, 1] [⟨some "p"⟩] "p" 1
    (by decide) [("p", 1)] (by decide) 0 (by decide) (by decide)

/-- C2: with no cached method for the proxy host, when every configured
method answers 407 each method is invoked exactly once in configured
order, the 407 of the last method is returned as-is (no error), the
bodies closed are exactly those of the non-last methods, and in
particular the returned response's body is not closed. -/
theorem multiAuth_all407_chain (beh : Method → Req → AuthResult)
    (ma : MultiAuth) (req : Req) (init : List Method) (lastM : Method)
    (r : Method → Response)
    (hms : ma.methods = init ++ [lastM])
    (hmiss : proxyHostOf req = "" ∨
      cacheLookup ma.cache (proxyHostOf req) = none)
    (hr : ∀ m ∈ init ++ [lastM],
        beh m req = .ok (r m) ∧ (r m).statusCode = statusProxyAuthRequired) :
    (multiDo beh ma req).result = .ok (r lastM) ∧
    invokedOf (multiDo beh ma req).events = init ++ [lastM] ∧
    closedOf (multiDo beh ma req).events = init.map r ∧
    (r lastM ∉ init.map r →
      Event.closeBody (r lastM) ∉ (multiDo beh ma req).events) := by
  have htry := tryMethods_all407 beh req (proxyHostOf req) ma.cache init
    lastM r hr
  have hmain : multiDo beh ma req =
      ⟨.ok (r lastM),
       (if proxyHostOf req = "" then []
        else [Event.cacheRead (proxyHostOf req)]) ++
         (init.flatMap (fun x => [.invoke x, .closeBody (r x)]) ++
           [.invoke lastM]),
       ma.cache⟩ := by
    by_cases hp : proxyHostOf req = ""
    · rw [multiDo_empty_host hp, hms]
      rw [hp] at htry
      rw [htry]
      simp [hp]
    · have hc := hmiss.resolve_left hp
      rw [multiDo_cache_miss hp hc, hms, htry]
      simp [hp]
  rw [hmain]
  have hinv : invokedOf
      ((if proxyHostOf req = "" then []
        else [Event.cacheRead (proxyHostOf req)]) ++
        (init.flatMap (fun x => [.invoke x, .closeBody (r x)]) ++
          [.invoke lastM])) = init ++ [lastM] := by
    by_cases hp : proxyHostOf req = "" <;>
      simp [hp, invokedOf_append, invokedOf_flatMap_pairs, invokedOf,
        invokedOf_cacheRead]
  have hcl : closedOf
      ((if proxyHostOf req = "" then []
        else [Event.cacheRead (proxyHostOf req)]) ++
        (init.flatMap (fun x => [.invoke x, .closeBody (r x)]) ++
          [.invoke lastM])) = init.map r := by
    by_cases hp : proxyHostOf req = "" <;>
      simp [hp, closedOf_append, closedOf_flatMap_pairs, closedOf,
        closedOf_cacheRead]
  refine ⟨rfl, hinv, hcl, fun hnot hmem => hnot ?_⟩
  rw [← hcl]
  exact (mem_closedOf (r lastM) _).mpr hmem

/-- Witness for C2 at a concrete two-method chain that always answers
407. -/
theorem multiAuth_all407_chain_witness :
    (multiDo behAll407 ⟨[0, 1], []⟩ ⟨some "p"⟩).result
        = .ok ((fun m => (⟨407, m⟩ : Response)) 1) ∧
    invokedOf (multiDo behAll407 ⟨[0, 1], []⟩ ⟨some "p"⟩).events
        = [0] ++ [1] ∧
    closedOf (multiDo behAll407 ⟨[0, 1], []⟩ ⟨some "p"⟩).events
        = [0].map (fun m => (⟨407, m⟩ : Response)) ∧
    ((fun m => (⟨407, m⟩ : Response)) 1 ∉
        [0].map (fun m => (⟨407, m⟩ : Response)) →
      Event.closeBody ((fun m => (⟨407, m⟩ : Response)) 1) ∉
        (multiDo behAll407 ⟨[0, 1], []⟩ ⟨some "p"⟩).events) :=
  multiAuth_all407_chain behAll407 ⟨[0, 1], []⟩ ⟨some "p"⟩ [0] 1
    (fun m => ⟨407, m⟩) rfl (Or.inr rfl) (by decide)

/-- Counterexample to C3: with two configured methods, a proxy host, an
empty cache, and every method answering 407, `multiAuthenticator.do`
closes the first method's response body and invokes the second method,
but the trace contains no drain of any body — the source only calls
`resp.Body.Close()` (line 374) and never reads the body to its end, so
the interim 407 body is closed without being drained. -/
theorem multiAuth_drain_counterexample :
    Event.closeBody ⟨407, 0⟩ ∈
        (multiDo behAll407 ⟨[0, 1], []⟩ ⟨some "proxy.example"⟩).events ∧
    Event.invoke 1 ∈
        (multiDo behAll407 ⟨[0, 1], []⟩ ⟨some "proxy.example"⟩).events ∧
    hasDrain (multiDo behAll407 ⟨[0, 1], []⟩
        ⟨some "proxy.example"⟩).events = false := by
  decide

/-- C3 as amended: for every 407 response received from a method that is
not the last in the chain, `multiAuthenticator.do` closes (but does not
drain) that response's body before invoking the next method, so at most
one response body is returned per inbound request. -/
theorem multiAuth_interim407_closed_before_next
    (beh : Method → Req → AuthResult) (ma : MultiAuth) (req : Req)
    (pre : List Method) (m m' : Method) (rest : List Method)
    (r : Method → Response) (resp : Response)
    (hms : ma.methods = pre ++ m :: m' :: rest)
    (hmiss : proxyHostOf req = "" ∨
      cacheLookup ma.cache (proxyHostOf req) = none)
    (hpre : ∀ x ∈ pre,
        beh x req = .ok (r x) ∧ (r x).statusCode = statusProxyAuthRequired)
    (hm : beh m req = .ok resp)
    (hs : resp.statusCode = statusProxyAuthRequired) :
    (∃ evs0 tl, (multiDo beh ma req).events =
        evs0 ++ Event.invoke m :: Event.closeBody resp ::
          Event.invoke m' :: tl) ∧
    hasDrain (multiDo beh ma req).events = false := by
  refine ⟨?_, multiDo_hasDrain beh ma req⟩
  obtain ⟨tl, htl⟩ :=
    tryMethods_events_cons beh req (proxyHostOf req) ma.cache m' rest
  have hstep := @tryMethods_cons_407 beh req (proxyHostOf req) ma.cache m
    resp hm hs m' rest
  have hfront := tryMethods_all407_front beh req (proxyHostOf req)
    ma.cache pre (m :: m' :: rest) r (by simp) hpre
  by_cases hp : proxyHostOf req = ""
  · refine ⟨pre.flatMap (fun x => [.invoke x, .closeBody (r x)]), tl, ?_⟩
    rw [hp] at hfront hstep htl
    rw [multiDo_empty_host hp, hms, hfront, hstep]
    simp [htl]
  · have hc := hmiss.resolve_left hp
    refine ⟨.cacheRead (proxyHostOf req) ::
      pre.flatMap (fun x => [.invoke x, .closeBody (r x)]), tl, ?_⟩
    rw [multiDo_cache_miss hp hc, hms, hfront, hstep]
    simp [htl]

/-- Witness for the amended C3 at a concrete two-method chain. -/
theorem multiAuth_interim407_closed_before_next_witness :
    (∃ evs0 tl, (multiDo behAll407 ⟨[0, 1], []⟩ ⟨some "p"⟩).events =
        evs0 ++ Event.invoke 0 :: Event.closeBody ⟨407, 0⟩ ::
          Event.invoke 1 :: tl) ∧
    hasDrain (multiDo behAll407 ⟨[0, 1], []⟩ ⟨some "p"⟩).events = false :=
  multiAuth_interim407_closed_before_next behAll407 ⟨[0, 1], []⟩ ⟨some "p"⟩
    [] 0 1 [] (fun m => ⟨407, m⟩) ⟨407, 0⟩ rfl (Or.inr rfl)
    (by decide) rfl rfl

/-- C4: with a proxy host that has no cached entry, when the methods
before position `m` all answer 407 and `m` answers non-407, iteration
stops at `m` (methods after it are not invoked), the mapping
`host ↦ m` is stored in the cache, and `m`'s response is returned
unchanged. -/
theorem multiAuth_first_success_cached (beh : Method → Req → AuthResult)
    (ma : MultiAuth) (req : Req) (h : String) (pre : List Method)
    (m : Method) (post : List Method) (r : Method → Response)
    (resp : Response)
    (hph : proxyHostOf req = h) (hne : h ≠ "")
    (hc : cacheLookup ma.cache h = none)
    (hms : ma.methods = pre ++ m :: post)
    (hpre : ∀ x ∈ pre,
        beh x req = .ok (r x) ∧ (r x).statusCode = statusProxyAuthRequired)
    (hm : beh m req = .ok resp)
    (hs : resp.statusCode ≠ statusProxyAuthRequired) :
    (multiDo beh ma req).result = .ok resp ∧
    invokedOf (multiDo beh ma req).events = pre ++ [m] ∧
    (multiDo beh ma req).cache = cacheInsert ma.cache h m ∧
    cacheLookup (multiDo beh ma req).cache h = some m := by
  subst hph
  have hp : proxyHostOf req ≠ "" := hne
  have htry := tryMethods_first_non407 beh req (proxyHostOf req) ma.cache
    pre m post r resp hpre hm hs
  rw [multiDo_cache_miss hp hc, hms, htry]
  refine ⟨?_, ?_, ?_, ?_⟩ <;>
    simp [hp, invokedOf_cacheRead, invokedOf_append,
      invokedOf_flatMap_pairs, invokedOf, cacheLookup, cacheInsert]

/-- Witness for C4 at a concrete chain whose second method succeeds. -/
theorem multiAuth_first_success_cached_witness :
    (multiDo behSecond200 ⟨[0, 1], []⟩ ⟨some "p"⟩).result = .ok ⟨200, 1⟩ ∧
    invokedOf (multiDo behSecond200 ⟨[0, 1], []⟩ ⟨some "p"⟩).events
        = [0] ++ [1] ∧
    (multiDo behSecond200 ⟨[0, 1], []⟩ ⟨some "p"⟩).cache
        = cacheInsert [] "p" 1 ∧
    cacheLookup (multiDo behSecond200 ⟨[0, 1], []⟩ ⟨some "p"⟩).cache "p"
        = some 1 :=
  multiAuth_first_success_cached behSecond200 ⟨[0, 1], []⟩ ⟨some "p"⟩ "p"
    [0] 1 [] (fun m => ⟨407, m⟩) ⟨200, 1⟩ rfl (by decide) rfl rfl
    (by decide) (by decide) (by decide)

/-- C10: when the request context carries no proxy URL, or a proxy URL
with empty hostname, the cache is neither consulted nor modified — the
cache is identical before and after and the trace has no cache events —
while the configured methods are still tried in configured order (the
invoked methods are an initial segment of the chain, non-empty when the
chain is). -/
theorem multiAuth_no_host_cache_frame (beh : Method → Req → AuthResult)
    (ma : MultiAuth) (req : Req)
    (hctx : req.proxyCtx = none ∨ req.proxyCtx = some "") :
    (multiDo beh ma req).cache = ma.cache ∧
    hasCacheEvent (multiDo beh ma req).events = false ∧
    ∃ k, invokedOf (multiDo beh ma req).events = ma.methods.take k ∧
      (ma.methods = [] ∨ 0 < k) := by
  have hp : proxyHostOf req = "" := by
    rcases hctx with h | h <;> simp [proxyHostOf, h]
  rw [multiDo_empty_host hp]
  exact ⟨tryMethods_cache_of_empty_host beh req ma.cache ma.methods,
    tryMethods_hasCacheEvent_empty_host beh req ma.cache ma.methods,
    tryMethods_invoked_take beh req "" ma.cache ma.methods⟩

/-- Witness for C10 at a concrete chain and a context with no proxy. -/
theorem multiAuth_no_host_cache_frame_witness :
    (multiDo behAll407 ⟨[0, 1], [("x", 0)]⟩ ⟨none⟩).cache = [("x", 0)] ∧
    hasCacheEvent (multiDo behAll407 ⟨[0, 1], [("x", 0)]⟩ ⟨none⟩).events
        = false ∧
    ∃ k, invokedOf (multiDo behAll407 ⟨[0, 1], [("x", 0)]⟩ ⟨none⟩).events
        = [0, 1].take k ∧ (([0, 1] : List Method) = [] ∨ 0 < k) :=
  multiAuth_no_host_cache_frame behAll407 ⟨[0, 1], [("x", 0)]⟩ ⟨none⟩
    (Or.inl rfl)

/-- C5: for every combination of configured credentials, the chain built
at startup lists each available method exactly once, in the fixed order
Negotiate, then Basic, then NTLM (strictly increasing design rank). -/
theorem main_auth_chain_order :
    ∀ negotiateReady basicConfigured ntlmConfigured : Bool,
      (buildAuthMethods negotiateReady basicConfigured ntlmConfigured).count
          AuthMethodKind.negotiate = (if negotiateReady then 1 else 0) ∧
      (buildAuthMethods negotiateReady basicConfigured ntlmConfigured).count
          AuthMethodKind.basic = (if basicConfigured then 1 else 0) ∧
      (buildAuthMethods negotiateReady basicConfigured ntlmConfigured).count
          AuthMethodKind.ntlm = (if ntlmConfigured then 1 else 0) ∧
      List.Pairwise (fun a b => methodRank a < methodRank b)
        (buildAuthMethods negotiateReady basicConfigured ntlmConfigured) := by
  intro kn kb kt
  cases kn <;> cases kb <;> cases kt <;> decide

/-- Witness for C5 with all three methods configured. -/
theorem main_auth_chain_order_witness :
    (buildAuthMethods true true true).count AuthMethodKind.negotiate
        = (if true then 1 else 0) ∧
    (buildAuthMethods true true true).count AuthMethodKind.basic
        = (if true then 1 else 0) ∧
    (buildAuthMethods true true true).count AuthMethodKind.ntlm
        = (if true then 1 else 0) ∧
    List.Pairwise (fun a b => methodRank a < methodRank b)
      (buildAuthMethods true true true) :=
  main_auth_chain_order true true true

/-- C6: when the request context carries a proxy URL with non-empty
hostname `H` and token generation succeeds with token `T`,
`negotiateAuthenticator.do` performs exactly one round trip, on a request
whose `Proxy-Authorization` header is `"Negotiate "` followed by the
standard base64 encoding of `T`; the service principal used for token
acquisition is exactly `"HTTP@" ++ H`, and the round trip's result is
returned. -/
theorem negotiate_do_spnego_header (cgen : String → Nat × List Nat)
    (rt : NegReq → AuthResult) (req : NegReq) (H : String) (T : List Nat)
    (hH : req.proxyCtx = some H) (hne : H ≠ "")
    (hT : generateSPNEGOToken cgen H = .ok T) :
    ∃ req', (negotiateDo cgen rt req).sentRequests = [req'] ∧
      headerGet req'.headers "Proxy-Authorization"
          = some ("Negotiate " ++ base64Encode T) ∧
      (negotiateDo cgen rt req).spnsUsed = ["HTTP@" ++ H] ∧
      (negotiateDo cgen rt req).result = rt req' := by
  refine ⟨⟨req.proxyCtx,
    headerSet req.headers "Proxy-Authorization"
      ("Negotiate " ++ base64Encode T)⟩, ?_, ?_, ?_, ?_⟩ <;>
    simp [negotiateDo, hH, hne, hT, headerGet, headerSet]

/-- Witness for C6 at a concrete proxy host and token. -/
theorem negotiate_do_spnego_header_witness :
    ∃ req', (negotiateDo (fun _ => (0, [1, 2, 3]))
        (fun _ => .ok ⟨200, 9⟩) ⟨some "proxy.example", []⟩).sentRequests
          = [req'] ∧
      headerGet req'.headers "Proxy-Authorization"
          = some ("Negotiate " ++ base64Encode [1, 2, 3]) ∧
      (negotiateDo (fun _ => (0, [1, 2, 3]))
        (fun _ => .ok ⟨200, 9⟩) ⟨some "proxy.example", []⟩).spnsUsed
          = ["HTTP@" ++ "proxy.example"] ∧
      (negotiateDo (fun _ => (0, [1, 2, 3]))
        (fun _ => .ok ⟨200, 9⟩) ⟨some "proxy.example", []⟩).result
          = (fun _ => AuthResult.ok ⟨200, 9⟩) req' :=
  negotiate_do_spnego_header (fun _ => (0, [1, 2, 3]))
    (fun _ => .ok ⟨200, 9⟩) ⟨some "proxy.example", []⟩ "proxy.example"
    [1, 2, 3] rfl (by decide) rfl

/-- C7: with zero non-nil configured methods `newMultiAuthenticator`
returns the nil authenticator, and the method-chain loop of
`multiAuthenticator.do` over an empty methods list (with nothing cached
for the request's proxy host) returns an error and no response. -/
theorem empty_chain_unauthenticated (methods : List (Option Method))
    (beh : Method → Req → AuthResult) (cache : Cache) (req : Req)
    (hnil : filterNonNil methods = [])
    (hmiss : proxyHostOf req = "" ∨
      cacheLookup cache (proxyHostOf req) = none) :
    newMultiAuthenticator methods = BuiltAuthenticator.noAuth ∧
    ∃ msg, (multiDo beh ⟨[], cache⟩ req).result = .err msg := by
  constructor
  · unfold newMultiAuthenticator
    rw [hnil]
  · refine ⟨"no authentication methods configured", ?_⟩
    by_cases hp : proxyHostOf req = ""
    · rw [multiDo_empty_host hp]
      rfl
    · have hc := hmiss.resolve_left hp
      rw [multiDo_cache_miss hp hc]
      rfl

/-- Witness for C7 with two nil methods and an empty cache. -/
theorem empty_chain_unauthenticated_witness :
    newMultiAuthenticator [none, none] = BuiltAuthenticator.noAuth ∧
    ∃ msg, (multiDo behAll407 ⟨[], []⟩ ⟨none⟩).result = .err msg :=
  empty_chain_unauthenticated [none, none] behAll407 [] ⟨none⟩
    rfl (Or.inl rfl)

/-- C8: in credential print mode, with no NTLM credentials the program
exits with code 1; with credentials available it prints them (in the
`NTLM_CREDENTIALS` export line) and exits with code 0. -/
theorem print_hash_mode_exit_codes (creds : String) :
    (printHashMode none).1 = 1 ∧
    (printHashMode (some creds)).1 = 0 ∧
    ("NTLM_CREDENTIALS=" ++ goQuote creds ++ "; export NTLM_CREDENTIALS")
        ∈ (printHashMode (some creds)).2 := by
  refine ⟨rfl, rfl, ?_⟩
  simp [printHashMode]

/-- Witness for C8 at a concrete credential string. -/
theorem print_hash_mode_exit_codes_witness :
    (printHashMode none).1 = 1 ∧
    (printHashMode (some "DOMAIN;user;hash")).1 = 0 ∧
    ("NTLM_CREDENTIALS=" ++ goQuote "DOMAIN;user;hash" ++
        "; export NTLM_CREDENTIALS")
        ∈ (printHashMode (some "DOMAIN;user;hash")).2 :=
  print_hash_mode_exit_codes "DOMAIN;user;hash"

/-- C9: `newMultiAuthenticator` first drops nil entries, then returns
the nil authenticator for zero remaining methods, the single remaining
method itself for one (no caching layer), and for two or more a
`multiAuthenticator` whose methods list is the filtered list in order
and whose cache starts empty. -/
theorem newMultiAuthenticator_cases (methods : List (Option Method)) :
    (filterNonNil methods = [] →
      newMultiAuthenticator methods = BuiltAuthenticator.noAuth) ∧
    (∀ m, filterNonNil methods = [m] →
      newMultiAuthenticator methods = BuiltAuthenticator.single m) ∧
    (2 ≤ (filterNonNil methods).length →
      newMultiAuthenticator methods
        = BuiltAuthenticator.multi ⟨filterNonNil methods, []⟩) := by
  refine ⟨?_, ?_, ?_⟩
  · intro h
    unfold newMultiAuthenticator
    rw [h]
  · intro m h
    unfold newMultiAuthenticator
    rw [h]
  · intro h2
    unfold newMultiAuthenticator
    cases hf : filterNonNil methods with
    | nil => rw [hf] at h2; simp at h2
    | cons x xs =>
      cases xs with
      | nil => rw [hf] at h2; simp at h2
      | cons y ys => rfl

/-- Witness for C9 on a list with two non-nil and one nil entry. -/
theorem newMultiAuthenticator_cases_witness :
    (filterNonNil [some 0, none, some 1] = [] →
      newMultiAuthenticator [some 0, none, some 1]
        = BuiltAuthenticator.noAuth) ∧
    (∀ m, filterNonNil [some 0, none, some 1] = [m] →
      newMultiAuthenticator [some 0, none, some 1]
        = BuiltAuthenticator.single m) ∧
    (2 ≤ (filterNonNil [some 0, none, some 1]).length →
      newMultiAuthenticator [some 0, none, some 1]
        = BuiltAuthenticator.multi ⟨filterNonNil [some 0, none, some 1], []⟩) :=
  newMultiAuthenticator_cases [some 0, none, some 1]
